import Mathlib

/-!
Shallow embedding of the multi-project stackdriver stats exporter
(files `exporter.go`, `project_data.go` and the point-conversion file).

Modelling conventions:
* Go slices and maps become Lean lists; a Go `map[string]string` is an
  association list manipulated only through `mapInsert` / `mapDelete` /
  `mapLookup`, which reproduce Go map semantics (assignment replaces the
  binding of an existing key).
* `float64` payloads are carried opaquely: the embedded code performs no
  floating-point arithmetic on them, so they are represented by `Int` and
  the single Go `int64(x)` cast is the identity on the carried payload.
* Failure-reporting callbacks (`onError`) become explicit lists of
  `ErrReport` values returned by the embedded functions, in call order.
* The monitoring client is modelled by `clientErr : Nat → Option String`,
  giving the error (if any) returned by the n-th `CreateTimeSeries` call,
  mirroring the mock client of the repository's tests.
* A Go `interface{}` value at the bundle call sites is modelled by
  `GoValue`; a failed type assertion (a run-time panic) is `Option.none`.
-/

namespace Exporter

/-- Opaque stand-in for Go `float64` payloads (no arithmetic is performed
on them by the embedded code). -/
abbrev Float64 := Int

/-- The Go `int64(x)` conversion applied to a `SumData`/`LastValueData`
payload; on the opaque payload it is the identity. -/
def float64ToInt64 (x : Float64) : Int := x

/-- `time.Time`, reduced to the two observations the code makes:
`Unix()` and `Nanosecond()`. -/
structure Time where
  unix : Int
  nanosecond : Int
deriving DecidableEq, Repr

/-- `timestamppb.Timestamp`. -/
structure Timestamp where
  seconds : Int
  nanos : Int
deriving DecidableEq, Repr

/-- The concrete implementations of `stats.Measure` the code switches on. -/
inductive Measure where
  | int64Measure
  | float64Measure
deriving DecidableEq, Repr

/-- `view.AggType`. -/
inductive AggType where
  | aggTypeNone
  | aggTypeCount
  | aggTypeSum
  | aggTypeDistribution
  | aggTypeLastValue
deriving DecidableEq, Repr

/-- `view.Aggregation`: the aggregation type plus the explicit bucket
boundaries used for distributions. -/
structure Aggregation where
  type : AggType
  buckets : List Float64
deriving DecidableEq, Repr

/-- `view.View`, reduced to the fields the exporter reads. -/
structure View where
  name : String
  measure : Measure
  aggregation : Aggregation
deriving DecidableEq, Repr

/-- `tag.Tag`: `key` models `Tag.Key.Name()`. -/
structure Tag where
  key : String
  value : String
deriving DecidableEq, Repr

/-- `view.AggregationData`: the four concrete variants the code switches
on.  `DistributionData` carries `Min`/`Max` even though the conversion
deliberately drops them. -/
inductive AggregationData where
  | countData (value : Int)
  | sumData (value : Float64)
  | distributionData (count : Int) (mean : Float64) (sumOfSquaredDev : Float64)
      (countPerBucket : List Int) (min : Float64) (max : Float64)
  | lastValueData (value : Float64)
deriving DecidableEq, Repr

/-- `view.Row`; `data = none` models a nil `Data` field (the tests'
`invalidRow`). -/
structure Row where
  tags : List Tag
  data : Option AggregationData
deriving DecidableEq, Repr

/-- `RowData` of `exporter.go`. -/
structure RowData where
  view : View
  start : Time
  endTime : Time
  row : Row
deriving DecidableEq, Repr

/-- The `Distribution` proto value assembled by `newTypedValue`:
`bucketBounds` models `BucketOptions.ExplicitBuckets.Bounds`, and
`rangeMinMax` models the `Range` field, which the code leaves unset. -/
structure DistributionValue where
  count : Int
  mean : Float64
  sumOfSquaredDeviation : Float64
  bucketBounds : List Float64
  bucketCounts : List Int
  rangeMinMax : Option (Float64 × Float64)
deriving DecidableEq, Repr

/-- `monitoringpb.TypedValue`. -/
inductive TypedValue where
  | int64Value (v : Int)
  | doubleValue (v : Float64)
  | distributionValue (d : DistributionValue)
deriving DecidableEq, Repr

/-- `monitoringpb.TimeInterval`; the code always sets `EndTime`, and sets
`StartTime` only for cumulative points. -/
structure TimeInterval where
  startTime : Option Timestamp
  endTime : Timestamp
deriving DecidableEq, Repr

/-- `monitoringpb.Point`; a nil `Value` (the inconsistent-data marker) is
`none`. -/
structure Point where
  interval : TimeInterval
  value : Option TypedValue
deriving DecidableEq, Repr

/-- `metricpb.Metric`. -/
structure Metric where
  type : String
  labels : List (String × String)
deriving DecidableEq, Repr

/-- `monitoredrespb.MonitoredResource`. -/
structure MonitoredResource where
  type : String
  labels : List (String × String)
deriving DecidableEq, Repr

/-- `monitoringpb.TimeSeries`. -/
structure TimeSeries where
  metric : Metric
  resource : MonitoredResource
  points : List Point
deriving DecidableEq, Repr

/-- `monitoringpb.CreateTimeSeriesRequest`. -/
structure CreateTimeSeriesRequest where
  name : String
  timeSeries : List TimeSeries
deriving DecidableEq, Repr

/-- `newTypedValue` of the point-conversion file: encodes a row's
aggregated value by aggregation/measure kind, `none` for any other
combination. -/
def newTypedValue (vd : View) (r : Row) : Option TypedValue :=
  match r.data with
  | some (.countData v) => some (.int64Value v)
  | some (.sumData v) =>
    match vd.measure with
    | .int64Measure => some (.int64Value (float64ToInt64 v))
    | .float64Measure => some (.doubleValue v)
  | some (.distributionData count mean ssd countPerBucket _ _) =>
    some (.distributionValue
      { count := count
        mean := mean
        sumOfSquaredDeviation := ssd
        bucketBounds := vd.aggregation.buckets
        bucketCounts := countPerBucket
        rangeMinMax := none })
  | some (.lastValueData v) =>
    match vd.measure with
    | .int64Measure => some (.int64Value (float64ToInt64 v))
    | .float64Measure => some (.doubleValue v)
  | none => none

/-- `newCumulativePoint`: interval carries both the start and the end
timestamp. -/
def newCumulativePoint (v : View) (row : Row) (start «end» : Time) : Point :=
  { interval :=
      { startTime := some { seconds := start.unix, nanos := start.nanosecond }
        endTime := { seconds := «end».unix, nanos := «end».nanosecond } }
    value := newTypedValue v row }

/-- `newGaugePoint`: interval carries only the end timestamp. -/
def newGaugePoint (v : View) (row : Row) («end» : Time) : Point :=
  { interval :=
      { startTime := none
        endTime := { seconds := «end».unix, nanos := «end».nanosecond } }
    value := newTypedValue v row }

/-- `newPoint`: gauge point for last-value aggregation, cumulative point
for every other aggregation type. -/
def newPoint (v : View) (row : Row) (start «end» : Time) : Point :=
  match v.aggregation.type with
  | .aggTypeLastValue => newGaugePoint v row «end»
  | _ => newCumulativePoint v row start «end»

/-- Go map assignment `m[k] = v`: replaces the binding of an existing key,
otherwise adds one. -/
def mapInsert (m : List (String × String)) (k v : String) : List (String × String) :=
  if m.any (fun p => p.1 == k) then
    m.map (fun p => if p.1 == k then (k, v) else p)
  else
    m ++ [(k, v)]

/-- Go map deletion `delete(m, k)`. -/
def mapDelete (m : List (String × String)) (k : String) : List (String × String) :=
  m.filter (fun p => p.1 != k)

/-- Go map lookup `m[k]`. -/
def mapLookup (m : List (String × String)) (k : String) : Option String :=
  (m.find? (fun p => p.1 == k)).map (fun p => p.2)

/-- The option fields of `Options` that the embedded code reads
structurally (callbacks are separate fields of `StatsExporter`). -/
structure Options where
  defaultLabels : List (String × String)
  unexportedLabels : List String
deriving DecidableEq, Repr

/-- `GetProjectID` outcomes: `RowDataNotApplicableError` or any other
error. -/
inductive ClassifyErr where
  | notApplicable
  | other (cause : String)
deriving DecidableEq, Repr

/-- Outcomes of `bndler.Add`: success, `bundler.ErrOversizedItem`, or any
other error. -/
inductive AddResult where
  | ok
  | oversized
  | failed (cause : String)
deriving DecidableEq, Repr

/-- The errors the exporter reports through `onError`, keyed by the data
embedded in the corresponding `fmt.Errorf` format strings. -/
inductive ExportErr where
  | inconsistentData (viewName : String)
  | resourceFailed (viewName : String) (cause : String)
  | rpcFailed (projectID : String) (cause : String)
  | getProjectIDFailed (viewName : String) (cause : String)
  | addFailed (viewName : String) (projectID : String) (cause : String)
deriving DecidableEq, Repr

/-- One `onError(err, rds...)` invocation: the error and the row data
passed with it. -/
structure ErrReport where
  err : ExportErr
  rds : List RowData
deriving DecidableEq, Repr

/-- `StatsExporter`, with callbacks as function fields and the monitoring
client modelled by the error (if any) of the n-th `CreateTimeSeries`
call. -/
structure StatsExporter where
  opts : Options
  getProjectID : RowData → Except ClassifyErr String
  makeResource : RowData → Except String MonitoredResource
  clientErr : Nat → Option String
  bundlerAdd : String → RowData → AddResult

/-- `projectData` of `project_data.go`. -/
structure ProjectData where
  parent : StatsExporter
  projectID : String

/-- `defaultGetProjectID`: treats every row as not applicable. -/
def defaultGetProjectID : RowData → Except ClassifyErr String :=
  fun _ => .error .notApplicable

/-- `defaultMakeResource`: constant global resource. -/
def defaultMakeResource : RowData → Except String MonitoredResource :=
  fun _ => .ok { type := "global", labels := [] }

/-- `makeLabels` of `project_data.go`: copy default labels, overlay every
tag (tag wins), then delete every unexported key. -/
def makeLabels (e : StatsExporter) (tags : List Tag) : List (String × String) :=
  let labels := e.opts.defaultLabels.foldl (fun m kv => mapInsert m kv.1 kv.2) []
  let labels := tags.foldl (fun m t => mapInsert m t.key t.value) labels
  e.opts.unexportedLabels.foldl (fun m k => mapDelete m k) labels

/-- The state assembled by the row loop of `makeReq`: the time series and
the rows they came from (`reqRds`), the errors reported through `onError`
while converting, and the rows not processed at all (`remainingRds`). -/
structure MakeReqAcc where
  timeSeries : List TimeSeries
  reqRds : List RowData
  errs : List ErrReport
  remainingRds : List RowData
deriving DecidableEq, Repr

/-- The row loop of `makeReq` (`project_data.go`), with `count` the number
of time series already in the request: skip a row with a nil point value
(reporting an inconsistent-data error) or a failed resource construction
(reporting a resource error), otherwise append its time series, and break
once the series count reaches `maxTS` (`MaxTimeSeriesPerUpload`), leaving
the unprocessed tail as `remainingRds`. -/
def makeReqLoop (pd : ProjectData) (maxTS : Nat) (count : Nat) :
    List RowData → MakeReqAcc
  | [] => { timeSeries := [], reqRds := [], errs := [], remainingRds := [] }
  | rd :: rest =>
    let pt := newPoint rd.view rd.row rd.start rd.endTime
    match pt.value with
    | none =>
      let a := makeReqLoop pd maxTS count rest
      { a with errs := { err := .inconsistentData rd.view.name, rds := [rd] } :: a.errs }
    | some _ =>
      match pd.parent.makeResource rd with
      | .error cause =>
        let a := makeReqLoop pd maxTS count rest
        { a with errs := { err := .resourceFailed rd.view.name cause, rds := [rd] } :: a.errs }
      | .ok resource =>
        let ts : TimeSeries :=
          { metric := { type := rd.view.name, labels := makeLabels pd.parent rd.row.tags }
            resource := resource
            points := [pt] }
        if count + 1 = maxTS then
          { timeSeries := [ts], reqRds := [rd], errs := [], remainingRds := rest }
        else
          let a := makeReqLoop pd maxTS (count + 1) rest
          { a with timeSeries := ts :: a.timeSeries, reqRds := rd :: a.reqRds }

/-- Result of `makeReq`: the request (`none` when there is nothing to
request), together with the loop outputs. -/
structure MakeReqOut where
  req : Option CreateTimeSeriesRequest
  reqRds : List RowData
  remainingRds : List RowData
  errs : List ErrReport
deriving DecidableEq, Repr

/-- `makeReq` of `project_data.go`. -/
def makeReq (pd : ProjectData) (maxTS : Nat) (rds : List RowData) : MakeReqOut :=
  let a := makeReqLoop pd maxTS 0 rds
  { req :=
      if a.timeSeries = [] then none
      else some { name := "projects/" ++ pd.projectID, timeSeries := a.timeSeries }
    reqRds := a.reqRds
    remainingRds := a.remainingRds
    errs := a.errs }

theorem makeReqLoop_remaining_le (pd : ProjectData) (maxTS : Nat) :
    ∀ (count : Nat) (l : List RowData),
      (makeReqLoop pd maxTS count l).remainingRds.length ≤ l.length := by
  intro count l
  induction l generalizing count with
  | nil => simp [makeReqLoop]
  | cons rd rest ih =>
    simp only [makeReqLoop]
    cases hpt : (newPoint rd.view rd.row rd.start rd.endTime).value with
    | none =>
      simpa using Nat.le_succ_of_le (ih count)
    | some tv =>
      cases hres : pd.parent.makeResource rd with
      | error cause => simpa using Nat.le_succ_of_le (ih count)
      | ok resource =>
        by_cases hc : count + 1 = maxTS
        · simp [hc]
        · simpa [hc] using Nat.le_succ_of_le (ih (count + 1))

theorem makeReq_remaining_lt (pd : ProjectData) (maxTS : Nat) (rds : List RowData)
    (h : rds ≠ []) :
    (makeReq pd maxTS rds).remainingRds.length < rds.length := by
  cases rds with
  | nil => exact absurd rfl h
  | cons rd rest =>
    show (makeReqLoop pd maxTS 0 (rd :: rest)).remainingRds.length < (rd :: rest).length
    simp only [makeReqLoop]
    cases hpt : (newPoint rd.view rd.row rd.start rd.endTime).value with
    | none =>
      simpa using Nat.lt_succ_of_le (makeReqLoop_remaining_le pd maxTS 0 rest)
    | some tv =>
      cases hres : pd.parent.makeResource rd with
      | error cause =>
        simpa using Nat.lt_succ_of_le (makeReqLoop_remaining_le pd maxTS 0 rest)
      | ok resource =>
        by_cases hc : 0 + 1 = maxTS
        · simp [hc]
        · simpa [hc] using Nat.lt_succ_of_le (makeReqLoop_remaining_le pd maxTS 1 rest)

/-- What `uploadRowData` did: the requests passed to `CreateTimeSeries`
paired with the rows they contain, the errors reported through `onError`,
and the number of `CreateTimeSeries` calls made. -/
structure UploadOut where
  issued : List (CreateTimeSeriesRequest × List RowData)
  errs : List ErrReport
  calls : Nat
deriving DecidableEq, Repr

/-- The chunking loop of `uploadRowData` (`project_data.go`), with `k` the
index of the next `CreateTimeSeries` call: while rows remain, build a
request with `makeReq`; skip the RPC for a nil request; otherwise call the
client and, on error, report one aggregated error carrying exactly the
rows of that request; then continue with the remaining rows. -/
def uploadLoop (pd : ProjectData) (maxTS : Nat) (k : Nat) :
    (rds : List RowData) → UploadOut
  | [] => { issued := [], errs := [], calls := 0 }
  | rd :: rest =>
    let m := makeReq pd maxTS (rd :: rest)
    have hlt : m.remainingRds.length < (rd :: rest).length :=
      makeReq_remaining_lt pd maxTS (rd :: rest) (by simp)
    match m.req with
    | none =>
      let u := uploadLoop pd maxTS k m.remainingRds
      { issued := u.issued, errs := m.errs ++ u.errs, calls := u.calls }
    | some req =>
      match pd.parent.clientErr k with
      | none =>
        let u := uploadLoop pd maxTS (k + 1) m.remainingRds
        { issued := (req, m.reqRds) :: u.issued
          errs := m.errs ++ u.errs
          calls := u.calls + 1 }
      | some cause =>
        let u := uploadLoop pd maxTS (k + 1) m.remainingRds
        { issued := (req, m.reqRds) :: u.issued
          errs := m.errs ++
            { err := .rpcFailed pd.projectID cause, rds := m.reqRds } :: u.errs
          calls := u.calls + 1 }
termination_by rds => rds.length

/-- `uploadRowData` applied to an already-cast `[]*RowData` bundle. -/
def uploadRowData (pd : ProjectData) (maxTS : Nat) (rds : List RowData) : UploadOut :=
  uploadLoop pd maxTS 0 rds

/-- A Go `interface{}` value at the two call sites of `uploadRowData`: the
bundler hands over a `[]*RowData`, while the oversized-item path of
`exportRowData` hands over a bare `*RowData`. -/
inductive GoValue where
  | rowData (rd : RowData)
  | rowDataSlice (rds : List RowData)
deriving DecidableEq, Repr

/-- The type assertion `bundle.([]*RowData)` at the top of
`uploadRowData`; `none` models the run-time panic of a failed
assertion. -/
def castToRowDataSlice : GoValue → Option (List RowData)
  | .rowDataSlice rds => some rds
  | .rowData _ => none

/-- `uploadRowData` as called with an `interface{}` bundle: first the type
assertion, then the chunking loop; `none` is the panic of a failed
assertion. -/
def uploadRowDataGo (pd : ProjectData) (maxTS : Nat) (bundle : GoValue) :
    Option UploadOut :=
  (castToRowDataSlice bundle).map (uploadRowData pd maxTS)

/-- Outcome of `exportRowData` for one row. -/
inductive ExportResult where
  | buffered (projectID : String)
  | droppedSilently
  | reported (e : ErrReport)
  | directUpload (projectID : String) (bundleArg : GoValue)
deriving DecidableEq, Repr

/-- `exportRowData` of `exporter.go`: classify the row; silently drop a
not-applicable row; report any other classification error; otherwise hand
the row to the project's bundler, spawning
`go pd.uploadRowData(rd)` — with the bare `*RowData` as argument — when
the bundler rejects it as oversized, and reporting any other `Add`
failure. -/
def exportRowData (e : StatsExporter) (rd : RowData) : ExportResult :=
  match e.getProjectID rd with
  | .error .notApplicable => .droppedSilently
  | .error (.other cause) =>
    .reported { err := .getProjectIDFailed rd.view.name cause, rds := [rd] }
  | .ok projID =>
    match e.bundlerAdd projID rd with
    | .ok => .buffered projID
    | .oversized => .directUpload projID (.rowData rd)
    | .failed cause =>
      .reported { err := .addFailed rd.view.name projID cause, rds := [rd] }

/-- A row for which `makeReq` neither reports an inconsistent-data error
nor a resource-construction error: its point value exists and the
resource callback succeeds. -/
def rowOk (pd : ProjectData) (rd : RowData) : Bool :=
  (newTypedValue rd.view rd.row).isSome &&
    (match pd.parent.makeResource rd with
     | .ok _ => true
     | .error _ => false)

/-- The time series `makeReq` builds for a row that passes both checks
(the resource placeholder in the error case is never reached under
`rowOk`). -/
def tsOf (pd : ProjectData) (rd : RowData) : TimeSeries :=
  { metric := { type := rd.view.name, labels := makeLabels pd.parent rd.row.tags }
    resource :=
      match pd.parent.makeResource rd with
      | .ok r => r
      | .error _ => { type := "", labels := [] }
    points := [newPoint rd.view rd.row rd.start rd.endTime] }

/-- The value of the last binding of `k` in an association list (what a
sequence of Go map assignments leaves behind). -/
def lastBinding (l : List (String × String)) (k : String) : Option String :=
  l.foldl (fun acc p => if p.1 == k then some p.2 else acc) none

/-! Concrete fixtures used by the witness theorems, mirroring the
repository's test data. -/

/-- A sum-aggregation view over an integer measure (the tests'
`view1`). -/
def view1 : View :=
  { name := "metric_1", measure := .int64Measure, aggregation := ⟨.aggTypeSum, []⟩ }

/-- A last-value view over a float measure. -/
def viewGauge : View :=
  { name := "metric_g", measure := .float64Measure, aggregation := ⟨.aggTypeLastValue, []⟩ }

/-- A valid sum row carrying the value `n`. -/
def sumRowData (n : Int) : RowData :=
  { view := view1, start := ⟨100, 5⟩, endTime := ⟨110, 7⟩
    row := { tags := [], data := some (.sumData n) } }

/-- A row with a nil `Data` field (the tests' `invalidRow`): its point
conversion yields no value. -/
def invalidRowData : RowData :=
  { view := view1, start := ⟨100, 5⟩, endTime := ⟨110, 7⟩
    row := { tags := [], data := none } }

/-- A baseline exporter: no labels, classifier fixed to `project-1`,
default resource, client that never fails, bundler that accepts. -/
def expBase : StatsExporter :=
  { opts := { defaultLabels := [], unexportedLabels := [] }
    getProjectID := fun _ => .ok "project-1"
    makeResource := defaultMakeResource
    clientErr := fun _ => none
    bundlerAdd := fun _ _ => .ok }

/-- Project data of `expBase` for `project-1`. -/
def pdBase : ProjectData := { parent := expBase, projectID := "project-1" }

/-- Exporter whose client fails exactly on its first call. -/
def expFail0 : StatsExporter :=
  { expBase with clientErr := fun k => if k = 0 then some "transport broken" else none }

/-- Project data of `expFail0`. -/
def pdFail0 : ProjectData := { parent := expFail0, projectID := "project-1" }

/-- Exporter whose bundler rejects every row as oversized. -/
def expOversized : StatsExporter := { expBase with bundlerAdd := fun _ _ => .oversized }

/-- Project data of `expOversized`. -/
def pdOversized : ProjectData := { parent := expOversized, projectID := "project-1" }

/-- Exporter whose classifier deems every row not applicable. -/
def expNotApplicable : StatsExporter :=
  { expBase with getProjectID := fun _ => .error .notApplicable }

/-- Exporter whose classifier fails with a generic error. -/
def expClassifyErr : StatsExporter :=
  { expBase with getProjectID := fun _ => .error (.other "lookup failed") }

/-- Exporter with default labels `a ↦ 1`, `b ↦ 2` and no unexported
keys. -/
def expLabelsA : StatsExporter :=
  { expBase with opts := { defaultLabels := [("a", "1"), ("b", "2")], unexportedLabels := [] } }

/-- Exporter with default labels `a ↦ 1`, `b ↦ 2` and `b` unexported. -/
def expLabelsB : StatsExporter :=
  { expBase with opts := { defaultLabels := [("a", "1"), ("b", "2")], unexportedLabels := ["b"] } }

/-! Helper lemmas. -/

theorem newPoint_value (v : View) (row : Row) (start «end» : Time) :
    (newPoint v row start «end»).value = newTypedValue v row := by
  rcases v with ⟨n, m, ⟨t, b⟩⟩
  cases t <;> rfl

theorem find?_map_replaceKey (k v k' : String) :
    ∀ m : List (String × String),
      (m.map (fun p => if p.1 == k then (k, v) else p)).find? (fun p => p.1 == k') =
        if k' = k then ((m.find? (fun p => p.1 == k)).map (fun _ => (k, v)))
        else m.find? (fun p => p.1 == k') := by
  intro m
  induction m with
  | nil => by_cases h : k' = k <;> simp [h]
  | cons p m ih =>
    rw [List.map_cons]
    by_cases hp : p.1 = k
    · rw [if_pos (by simpa using hp)]
      by_cases hk : k' = k
      · rw [if_pos hk, List.find?_cons_of_pos _ (by simpa using hk.symm),
          List.find?_cons_of_pos _ (by simpa using hp)]
        rfl
      · rw [if_neg hk, List.find?_cons_of_neg _ (by simpa using fun h => hk h.symm),
          List.find?_cons_of_neg _ (by simpa using fun h : p.1 = k' => hk ((hp.symm.trans h).symm)),
          ih, if_neg hk]
    · rw [if_neg (by simpa using hp)]
      by_cases hp' : p.1 = k'
      · have hk : ¬k' = k := fun h => hp (hp'.trans h)
        rw [if_neg hk, List.find?_cons_of_pos _ (by simpa using hp'),
          List.find?_cons_of_pos _ (by simpa using hp')]
      · rw [List.find?_cons_of_neg _ (by simpa using hp'), ih]
        by_cases hk : k' = k
        · rw [if_pos hk, if_pos hk, List.find?_cons_of_neg _ (by simpa using hp)]
        · rw [if_neg hk, if_neg hk, List.find?_cons_of_neg _ (by simpa using hp')]

theorem any_key_eq_false_find? (k : String) (m : List (String × String))
    (hany : m.any (fun p => p.1 == k) = false) :
    m.find? (fun p => p.1 == k) = none := by
  rw [List.find?_eq_none]
  intro p hp
  have := List.any_eq_false.mp hany p hp
  simpa using this

theorem mapLookup_mapInsert (m : List (String × String)) (k v k' : String) :
    mapLookup (mapInsert m k v) k' =
      if k' = k then some v else mapLookup m k' := by
  unfold mapInsert mapLookup
  by_cases hany : m.any (fun p => p.1 == k)
  · rw [if_pos hany, find?_map_replaceKey]
    by_cases hk : k' = k
    · rcases List.any_eq_true.mp hany with ⟨p, hp, hpk⟩
      have hsome : (m.find? (fun p => p.1 == k)).isSome := by
        rw [List.find?_isSome]
        exact ⟨p, hp, hpk⟩
      rcases Option.isSome_iff_exists.mp hsome with ⟨q, hq⟩
      simp [hk, hq]
    · simp [hk]
  · rw [if_neg hany, List.find?_append]
    by_cases hk : k' = k
    · rw [if_pos hk, hk, any_key_eq_false_find? k m (Bool.eq_false_iff.mpr hany)]
      simp
    · rw [if_neg hk, List.find?_cons_of_neg _ (by simpa using fun h => hk h.symm),
        List.find?_nil]
      cases hf : m.find? (fun p => p.1 == k') <;> simp [hf, Option.orElse]

theorem mapLookup_mapDelete (m : List (String × String)) (k k' : String) :
    mapLookup (mapDelete m k) k' =
      if k' = k then none else mapLookup m k' := by
  unfold mapDelete mapLookup
  by_cases hk : k' = k
  · have hnone : (m.filter (fun p => p.1 != k)).find? (fun p => p.1 == k') = none := by
      rw [List.find?_eq_none]
      intro p hp
      have := (List.mem_filter.mp hp).2
      simp only [bne_iff_ne, ne_eq] at this
      simp [hk, this]
    simp [hk, hnone]
  · rw [if_neg hk]
    induction m with
    | nil => simp
    | cons p m ih =>
      rw [List.filter_cons]
      by_cases hp : p.1 = k
      · rw [if_neg (by simpa using hp), ih,
          List.find?_cons_of_neg _ (by simpa using fun h : p.1 = k' => hk ((hp.symm.trans h).symm))]
      · rw [if_pos (by simpa using hp)]
        by_cases hp' : p.1 = k'
        · rw [List.find?_cons_of_pos _ (by simpa using hp'),
            List.find?_cons_of_pos _ (by simpa using hp')]
        · rw [List.find?_cons_of_neg _ (by simpa using hp'),
            List.find?_cons_of_neg _ (by simpa using hp'), ih]

theorem mapLookup_foldl_insert (k : String) :
    ∀ (l : List (String × String)) (m : List (String × String)),
      mapLookup (l.foldl (fun m kv => mapInsert m kv.1 kv.2) m) k =
        l.foldl (fun acc p => if p.1 == k then some p.2 else acc) (mapLookup m k) := by
  intro l
  induction l with
  | nil => intro m; rfl
  | cons p l ih =>
    intro m
    rw [List.foldl_cons, ih, List.foldl_cons, mapLookup_mapInsert]
    by_cases hp : p.1 = k
    · rw [if_pos hp.symm, if_pos (by simpa using hp)]
    · rw [if_neg (fun h => hp h.symm), if_neg (by simpa using hp)]

theorem mapLookup_foldl_insert_tags (k : String) :
    ∀ (tags : List Tag) (m : List (String × String)),
      mapLookup (tags.foldl (fun m t => mapInsert m t.key t.value) m) k =
        tags.foldl (fun acc t => if t.key == k then some t.value else acc) (mapLookup m k) := by
  intro tags
  induction tags with
  | nil => intro m; rfl
  | cons t tags ih =>
    intro m
    rw [List.foldl_cons, ih, List.foldl_cons, mapLookup_mapInsert]
    by_cases ht : t.key = k
    · rw [if_pos ht.symm, if_pos (by simpa using ht)]
    · rw [if_neg (fun h => ht h.symm), if_neg (by simpa using ht)]

theorem mapLookup_foldl_delete (k : String) :
    ∀ (dels : List String) (m : List (String × String)),
      mapLookup (dels.foldl (fun m d => mapDelete m d) m) k =
        if k ∈ dels then none else mapLookup m k := by
  intro dels
  induction dels with
  | nil => intro m; simp
  | cons d dels ih =>
    intro m
    rw [List.foldl_cons, ih, mapLookup_mapDelete]
    by_cases hd : k = d
    · simp [hd]
    · by_cases hm : k ∈ dels <;> simp [hd, hm]

theorem makeLabels_lookup (e : StatsExporter) (tags : List Tag) (k : String) :
    mapLookup (makeLabels e tags) k =
      if k ∈ e.opts.unexportedLabels then none
      else lastBinding (e.opts.defaultLabels ++ tags.map (fun t => (t.key, t.value))) k := by
  unfold makeLabels lastBinding
  rw [mapLookup_foldl_delete, mapLookup_foldl_insert_tags, mapLookup_foldl_insert,
    List.foldl_append, List.foldl_map]
  rfl

theorem ceilDiv_pos_step (M N : Nat) (hM : 0 < M) (hN : 0 < N) :
    (N + M - 1) / M = ((N - M) + M - 1) / M + 1 := by
  rcases le_or_lt N M with h | h
  · have h0 : N - M = 0 := by omega
    rw [h0]
    have hR : (0 + M - 1) / M = 0 := Nat.div_eq_of_lt (by omega)
    rw [hR]
    exact Nat.div_eq_of_lt_le (by omega) (by omega)
  · have hrw : N + M - 1 = ((N - M) + M - 1) + M := by omega
    rw [hrw, Nat.add_div_right _ hM]

theorem ceilDiv_pos_ge_one (M N : Nat) (hM : 0 < M) (hN : 0 < N) :
    1 ≤ (N + M - 1) / M := by
  rw [Nat.le_div_iff_mul_le hM]
  omega

theorem rowOk_resource (pd : ProjectData) (rd : RowData) (h : rowOk pd rd = true) :
    ∃ r, pd.parent.makeResource rd = .ok r := by
  rw [rowOk, Bool.and_eq_true] at h
  cases hr : pd.parent.makeResource rd with
  | ok r => exact ⟨r, rfl⟩
  | error c =>
    exfalso
    have := h.2
    rw [hr] at this
    simp at this

theorem rowOk_value (pd : ProjectData) (rd : RowData) (h : rowOk pd rd = true) :
    ∃ tv, newTypedValue rd.view rd.row = some tv := by
  rw [rowOk, Bool.and_eq_true] at h
  exact Option.isSome_iff_exists.mp h.1

theorem makeReqLoop_allOk (pd : ProjectData) (maxTS : Nat) :
    ∀ (l : List RowData) (c : Nat), c < maxTS →
      (∀ rd ∈ l, rowOk pd rd = true) →
      makeReqLoop pd maxTS c l =
        { timeSeries := (l.take (maxTS - c)).map (tsOf pd)
          reqRds := l.take (maxTS - c)
          errs := []
          remainingRds := l.drop (maxTS - c) } := by
  intro l
  induction l with
  | nil => intro c hc h; simp [makeReqLoop]
  | cons rd rest ih =>
    intro c hc h
    have hok := h rd (List.mem_cons_self _ _)
    obtain ⟨tv, htv⟩ := rowOk_value pd rd hok
    obtain ⟨r, hr⟩ := rowOk_resource pd rd hok
    simp only [makeReqLoop, newPoint_value, htv, hr]
    by_cases hc1 : c + 1 = maxTS
    · rw [if_pos hc1]
      have h1 : maxTS - c = 1 := by omega
      rw [h1]
      simp [tsOf, hr]
    · rw [if_neg hc1]
      rw [ih (c + 1) (by omega) (fun rd' h' => h rd' (List.mem_cons_of_mem _ h'))]
      have h2 : maxTS - c = (maxTS - (c + 1)) + 1 := by omega
      rw [h2, List.take_succ_cons, List.drop_succ_cons]
      simp [tsOf, hr]

theorem makeReqLoop_mixed (pd : ProjectData) (maxTS : Nat) (bad : RowData)
    (hbad : newTypedValue bad.view bad.row = none) :
    ∀ (pre : List RowData) (post : List RowData) (c : Nat), c < maxTS →
      (∀ rd ∈ pre, rowOk pd rd = true) →
      (∀ rd ∈ post, rowOk pd rd = true) →
      makeReqLoop pd maxTS c (pre ++ bad :: post) =
        if maxTS - c ≤ pre.length then
          { timeSeries := (pre.take (maxTS - c)).map (tsOf pd)
            reqRds := pre.take (maxTS - c)
            errs := []
            remainingRds := pre.drop (maxTS - c) ++ bad :: post }
        else
          { timeSeries := (pre ++ post.take (maxTS - c - pre.length)).map (tsOf pd)
            reqRds := pre ++ post.take (maxTS - c - pre.length)
            errs := [{ err := .inconsistentData bad.view.name, rds := [bad] }]
            remainingRds := post.drop (maxTS - c - pre.length) } := by
  intro pre
  induction pre with
  | nil =>
    intro post c hc hpre hpost
    rw [if_neg (by simp; omega)]
    simp only [List.nil_append, makeReqLoop, newPoint_value, hbad]
    rw [makeReqLoop_allOk pd maxTS post c hc hpost]
    simp
  | cons p pre ih =>
    intro post c hc hpre hpost
    have hok := hpre p (List.mem_cons_self _ _)
    obtain ⟨tv, htv⟩ := rowOk_value pd p hok
    obtain ⟨r, hr⟩ := rowOk_resource pd p hok
    simp only [List.cons_append, makeReqLoop, newPoint_value, htv, hr, List.append_eq]
    by_cases hc1 : c + 1 = maxTS
    · rw [if_pos hc1, if_pos (by simp; omega)]
      have h1 : maxTS - c = 1 := by omega
      rw [h1]
      simp [tsOf, hr]
    · rw [if_neg hc1]
      rw [ih post (c + 1) (by omega) (fun rd h' => hpre rd (List.mem_cons_of_mem _ h')) hpost]
      by_cases hle : maxTS - c ≤ (p :: pre).length
      · have hle' : maxTS - (c + 1) ≤ pre.length := by
          simp only [List.length_cons] at hle
          omega
        rw [if_pos hle', if_pos hle]
        have h2 : maxTS - c = (maxTS - (c + 1)) + 1 := by omega
        rw [h2, List.take_succ_cons, List.drop_succ_cons]
        simp [tsOf, hr]
      · have hle' : ¬maxTS - (c + 1) ≤ pre.length := by
          simp only [List.length_cons] at hle
          omega
        rw [if_neg hle', if_neg hle]
        have h3 : maxTS - (c + 1) - pre.length = maxTS - c - (p :: pre).length := by
          simp only [List.length_cons]
          omega
        rw [h3]
        simp [tsOf, hr]

theorem makeReqLoop_allBad (pd : ProjectData) (maxTS : Nat) :
    ∀ (l : List RowData) (c : Nat),
      (∀ rd ∈ l, newTypedValue rd.view rd.row = none) →
      makeReqLoop pd maxTS c l =
        { timeSeries := []
          reqRds := []
          errs := l.map (fun rd => { err := .inconsistentData rd.view.name, rds := [rd] })
          remainingRds := [] } := by
  intro l
  induction l with
  | nil => intro c h; simp [makeReqLoop]
  | cons rd rest ih =>
    intro c h
    have hbad := h rd (List.mem_cons_self _ _)
    simp only [makeReqLoop, newPoint_value, hbad]
    rw [ih c (fun rd' h' => h rd' (List.mem_cons_of_mem _ h'))]
    simp

theorem makeReqLoop_points (pd : ProjectData) (maxTS : Nat) :
    ∀ (l : List RowData) (c : Nat) (ts : TimeSeries),
      ts ∈ (makeReqLoop pd maxTS c l).timeSeries → ts.points.length = 1 := by
  intro l
  induction l with
  | nil => intro c ts hts; simp [makeReqLoop] at hts
  | cons rd rest ih =>
    intro c ts
    cases htv : (newPoint rd.view rd.row rd.start rd.endTime).value with
    | none =>
      simp only [makeReqLoop, htv]
      exact fun hts => ih c ts hts
    | some tv =>
      cases hres : pd.parent.makeResource rd with
      | error cause =>
        simp only [makeReqLoop, htv, hres]
        exact fun hts => ih c ts hts
      | ok r =>
        simp only [makeReqLoop, htv, hres]
        by_cases hc1 : c + 1 = maxTS
        · rw [if_pos hc1]
          intro hts
          simp only [List.mem_singleton] at hts
          subst hts
          rfl
        · rw [if_neg hc1]
          intro hts
          rcases List.mem_cons.mp hts with h1 | h1
          · subst h1; rfl
          · exact ih (c + 1) ts h1

theorem makeReq_allOk (pd : ProjectData) (maxTS : Nat) (hM : 0 < maxTS)
    (l : List RowData) (hne : l ≠ [])
    (h : ∀ rd ∈ l, rowOk pd rd = true) :
    makeReq pd maxTS l =
      { req := some { name := "projects/" ++ pd.projectID
                      timeSeries := (l.take maxTS).map (tsOf pd) }
        reqRds := l.take maxTS
        remainingRds := l.drop maxTS
        errs := [] } := by
  unfold makeReq
  rw [makeReqLoop_allOk pd maxTS l 0 hM h]
  have htake : l.take maxTS ≠ [] := by
    cases l with
    | nil => exact absurd rfl hne
    | cons a l =>
      cases maxTS with
      | zero => omega
      | succ n => simp [List.take_succ_cons]
  rw [Nat.sub_zero]
  simp only []
  rw [if_neg (by simpa using htake)]

theorem makeReq_allBad (pd : ProjectData) (maxTS : Nat) (l : List RowData)
    (h : ∀ rd ∈ l, newTypedValue rd.view rd.row = none) :
    makeReq pd maxTS l =
      { req := none
        reqRds := []
        remainingRds := []
        errs := l.map (fun rd => { err := .inconsistentData rd.view.name, rds := [rd] }) } := by
  unfold makeReq
  rw [makeReqLoop_allBad pd maxTS l 0 h]
  simp

theorem makeReq_mixed_big (pd : ProjectData) (maxTS : Nat) (bad : RowData)
    (hbad : newTypedValue bad.view bad.row = none) (pre post : List RowData)
    (hM : 0 < maxTS) (hlen : maxTS ≤ pre.length)
    (hpre : ∀ rd ∈ pre, rowOk pd rd = true) (hpost : ∀ rd ∈ post, rowOk pd rd = true) :
    makeReq pd maxTS (pre ++ bad :: post) =
      { req := some { name := "projects/" ++ pd.projectID
                      timeSeries := (pre.take maxTS).map (tsOf pd) }
        reqRds := pre.take maxTS
        remainingRds := pre.drop maxTS ++ bad :: post
        errs := [] } := by
  unfold makeReq
  rw [makeReqLoop_mixed pd maxTS bad hbad pre post 0 hM hpre hpost,
    if_pos (by simpa using hlen), Nat.sub_zero]
  have hpre_ne : pre ≠ [] := by
    intro hcon
    rw [hcon] at hlen
    simp at hlen
    omega
  have htake : pre.take maxTS ≠ [] := by
    rw [ne_eq, List.take_eq_nil_iff]
    push_neg
    exact ⟨by omega, hpre_ne⟩
  simp only []
  rw [if_neg (by simpa using htake)]

theorem makeReq_mixed_small (pd : ProjectData) (maxTS : Nat) (bad : RowData)
    (hbad : newTypedValue bad.view bad.row = none) (pre post : List RowData)
    (hM : 0 < maxTS) (hlen : pre.length < maxTS) (hne : ¬(pre = [] ∧ post = []))
    (hpre : ∀ rd ∈ pre, rowOk pd rd = true) (hpost : ∀ rd ∈ post, rowOk pd rd = true) :
    makeReq pd maxTS (pre ++ bad :: post) =
      { req := some { name := "projects/" ++ pd.projectID
                      timeSeries := (pre ++ post.take (maxTS - pre.length)).map (tsOf pd) }
        reqRds := pre ++ post.take (maxTS - pre.length)
        remainingRds := post.drop (maxTS - pre.length)
        errs := [{ err := .inconsistentData bad.view.name, rds := [bad] }] } := by
  unfold makeReq
  rw [makeReqLoop_mixed pd maxTS bad hbad pre post 0 hM hpre hpost,
    if_neg (by simp; omega), Nat.sub_zero]
  have hne' : pre ++ post.take (maxTS - pre.length) ≠ [] := by
    cases hp : pre with
    | cons a l => simp
    | nil =>
      cases hq : post with
      | nil => exact absurd ⟨hp, hq⟩ hne
      | cons b q =>
        subst hp
        subst hq
        simp only [List.length_nil, Nat.sub_zero, List.nil_append, ne_eq]
        rw [List.take_eq_nil_iff]
        push_neg
        exact ⟨by omega, by simp⟩
  simp only []
  rw [if_neg (by simpa using hne')]

theorem uploadLoop_cons_eq (pd : ProjectData) (maxTS k : Nat) (rds : List RowData)
    (h : rds ≠ []) :
    uploadLoop pd maxTS k rds =
      match (makeReq pd maxTS rds).req with
      | none =>
        let u := uploadLoop pd maxTS k (makeReq pd maxTS rds).remainingRds
        { issued := u.issued
          errs := (makeReq pd maxTS rds).errs ++ u.errs
          calls := u.calls }
      | some req =>
        match pd.parent.clientErr k with
        | none =>
          let u := uploadLoop pd maxTS (k + 1) (makeReq pd maxTS rds).remainingRds
          { issued := (req, (makeReq pd maxTS rds).reqRds) :: u.issued
            errs := (makeReq pd maxTS rds).errs ++ u.errs
            calls := u.calls + 1 }
        | some cause =>
          let u := uploadLoop pd maxTS (k + 1) (makeReq pd maxTS rds).remainingRds
          { issued := (req, (makeReq pd maxTS rds).reqRds) :: u.issued
            errs := (makeReq pd maxTS rds).errs ++
              { err := .rpcFailed pd.projectID cause
                rds := (makeReq pd maxTS rds).reqRds } :: u.errs
            calls := u.calls + 1 } := by
  cases rds with
  | nil => exact absurd rfl h
  | cons rd rest => exact uploadLoop.eq_2 pd maxTS k rd rest

theorem ceilDiv_zero (M : Nat) (hM : 0 < M) : (0 + M - 1) / M = 0 :=
  Nat.div_eq_of_lt (by omega)

theorem uploadLoop_allOk (pd : ProjectData) (maxTS : Nat) (hM : 0 < maxTS) :
    ∀ (n : Nat) (rds : List RowData) (k : Nat), rds.length ≤ n →
      (∀ rd ∈ rds, rowOk pd rd = true) →
      ((uploadLoop pd maxTS k rds).issued.map Prod.snd).flatten = rds ∧
      (uploadLoop pd maxTS k rds).issued.length = (rds.length + maxTS - 1) / maxTS ∧
      ∀ p ∈ (uploadLoop pd maxTS k rds).issued,
        p.2.length ≤ maxTS ∧
        p.1 = { name := "projects/" ++ pd.projectID, timeSeries := p.2.map (tsOf pd) } := by
  intro n
  induction n with
  | zero =>
    intro rds k hlen h
    have hnil : rds = [] := List.eq_nil_of_length_eq_zero (Nat.le_zero.mp hlen)
    subst hnil
    rw [uploadLoop.eq_1]
    refine ⟨rfl, ?_, by simp⟩
    simp only [List.length_nil, Nat.zero_add]
    exact (Nat.div_eq_of_lt (by omega)).symm
  | succ n ihn =>
    intro rds k hlen h
    cases hrds : rds with
    | nil =>
      rw [uploadLoop.eq_1]
      refine ⟨rfl, ?_, by simp⟩
      simp only [List.length_nil, Nat.zero_add]
      exact (Nat.div_eq_of_lt (by omega)).symm
    | cons rd rest =>
      subst hrds
      rw [uploadLoop_cons_eq pd maxTS k (rd :: rest) (by simp),
        makeReq_allOk pd maxTS hM (rd :: rest) (by simp) h]
      have hdrop_len : ((rd :: rest).drop maxTS).length ≤ n := by
        rw [List.length_drop]
        simp only [List.length_cons] at hlen ⊢
        omega
      have hdrop_ok : ∀ rd' ∈ (rd :: rest).drop maxTS, rowOk pd rd' = true :=
        fun rd' h' => h rd' (List.drop_subset _ _ h')
      cases hck : pd.parent.clientErr k with
      | none =>
        obtain ⟨hjoin, hcnt, hall⟩ := ihn ((rd :: rest).drop maxTS) (k + 1) hdrop_len hdrop_ok
        simp only [hck]
        refine ⟨?_, ?_, ?_⟩
        · simp only [List.map_cons, List.flatten_cons, hjoin]
          exact List.take_append_drop maxTS (rd :: rest)
        · simp only [List.length_cons, hcnt, List.length_drop]
          exact (ceilDiv_pos_step maxTS (rest.length + 1) hM (by omega)).symm
        · intro p hp
          rcases List.mem_cons.mp hp with h1 | h1
          · subst h1
            refine ⟨?_, rfl⟩
            simp only [List.length_take]
            omega
          · exact hall p h1
      | some cause =>
        obtain ⟨hjoin, hcnt, hall⟩ := ihn ((rd :: rest).drop maxTS) (k + 1) hdrop_len hdrop_ok
        simp only [hck]
        refine ⟨?_, ?_, ?_⟩
        · simp only [List.map_cons, List.flatten_cons, hjoin]
          exact List.take_append_drop maxTS (rd :: rest)
        · simp only [List.length_cons, hcnt, List.length_drop]
          exact (ceilDiv_pos_step maxTS (rest.length + 1) hM (by omega)).symm
        · intro p hp
          rcases List.mem_cons.mp hp with h1 | h1
          · subst h1
            refine ⟨?_, rfl⟩
            simp only [List.length_take]
            omega
          · exact hall p h1

theorem uploadLoop_allOk_errs_none (pd : ProjectData) (maxTS : Nat) (hM : 0 < maxTS)
    (hcl : ∀ i, pd.parent.clientErr i = none) :
    ∀ (n : Nat) (rds : List RowData) (k : Nat), rds.length ≤ n →
      (∀ rd ∈ rds, rowOk pd rd = true) →
      (uploadLoop pd maxTS k rds).errs = [] := by
  intro n
  induction n with
  | zero =>
    intro rds k hlen h
    have hnil : rds = [] := List.eq_nil_of_length_eq_zero (Nat.le_zero.mp hlen)
    subst hnil
    rw [uploadLoop.eq_1]
  | succ n ihn =>
    intro rds k hlen h
    cases hrds : rds with
    | nil =>
      rw [uploadLoop.eq_1]
    | cons rd rest =>
      subst hrds
      rw [uploadLoop_cons_eq pd maxTS k (rd :: rest) (by simp),
        makeReq_allOk pd maxTS hM (rd :: rest) (by simp) h]
      simp only [hcl k]
      have hdrop_len : ((rd :: rest).drop maxTS).length ≤ n := by
        rw [List.length_drop]
        simp only [List.length_cons] at hlen ⊢
        omega
      rw [ihn ((rd :: rest).drop maxTS) (k + 1) hdrop_len
        (fun rd' h' => h rd' (List.drop_subset _ _ h'))]
      rfl

theorem uploadLoop_allOk_errs_single (pd : ProjectData) (maxTS : Nat) (hM : 0 < maxTS)
    (j : Nat) (cause : String) (hj : pd.parent.clientErr j = some cause)
    (hother : ∀ i, i ≠ j → pd.parent.clientErr i = none) :
    ∀ (n : Nat) (rds : List RowData) (k : Nat), rds.length ≤ n →
      (∀ rd ∈ rds, rowOk pd rd = true) →
      (uploadLoop pd maxTS k rds).errs =
        if k ≤ j ∧ j < k + (rds.length + maxTS - 1) / maxTS then
          [{ err := .rpcFailed pd.projectID cause
             rds := (rds.drop ((j - k) * maxTS)).take maxTS }]
        else [] := by
  intro n
  induction n with
  | zero =>
    intro rds k hlen h
    have hnil : rds = [] := List.eq_nil_of_length_eq_zero (Nat.le_zero.mp hlen)
    subst hnil
    rw [uploadLoop.eq_1]
    rw [if_neg]
    simp only [List.length_nil, Nat.zero_add]
    rw [Nat.div_eq_of_lt (by omega)]
    omega
  | succ n ihn =>
    intro rds k hlen h
    cases hrds : rds with
    | nil =>
      rw [uploadLoop.eq_1]
      rw [if_neg]
      simp only [List.length_nil, Nat.zero_add]
      rw [Nat.div_eq_of_lt (by omega)]
      omega
    | cons rd rest =>
      subst hrds
      rw [uploadLoop_cons_eq pd maxTS k (rd :: rest) (by simp),
        makeReq_allOk pd maxTS hM (rd :: rest) (by simp) h]
      have hdrop_len : ((rd :: rest).drop maxTS).length ≤ n := by
        rw [List.length_drop]
        simp only [List.length_cons] at hlen ⊢
        omega
      have hrec := ihn ((rd :: rest).drop maxTS) (k + 1) hdrop_len
        (fun rd' h' => h rd' (List.drop_subset _ _ h'))
      have hstep := ceilDiv_pos_step maxTS (rest.length + 1) hM (by omega)
      by_cases hkj : k = j
      · subst hkj
        simp only [hj]
        rw [hrec, if_neg (by omega)]
        rw [if_pos]
        · simp
        · constructor
          · omega
          · have h1 : 1 ≤ ((rd :: rest).length + maxTS - 1) / maxTS :=
              ceilDiv_pos_ge_one maxTS _ hM (by simp)
            omega
      · simp only [hother k hkj]
        rw [hrec]
        simp only [List.length_drop, List.length_cons]
        by_cases hcond : k + 1 ≤ j ∧ j < k + 1 + (rest.length + 1 - maxTS + maxTS - 1) / maxTS
        · rw [if_pos hcond, if_pos (by omega)]
          have hmul : maxTS + (j - (k + 1)) * maxTS = (j - k) * maxTS := by
            have h1 : j - k = (j - (k + 1)) + 1 := by omega
            rw [h1, Nat.succ_mul, Nat.add_comm]
          rw [List.drop_drop, hmul]
          rfl
        · rw [if_neg hcond, if_neg (by omega)]
          rfl

theorem uploadLoop_mixed (pd : ProjectData) (maxTS : Nat) (hM : 0 < maxTS)
    (bad : RowData) (hbad : newTypedValue bad.view bad.row = none)
    (hcl : ∀ i, pd.parent.clientErr i = none) :
    ∀ (n : Nat) (pre post : List RowData) (k : Nat),
      (pre ++ bad :: post).length ≤ n →
      (∀ rd ∈ pre, rowOk pd rd = true) → (∀ rd ∈ post, rowOk pd rd = true) →
      (uploadLoop pd maxTS k (pre ++ bad :: post)).errs =
        [{ err := .inconsistentData bad.view.name, rds := [bad] }] ∧
      ((uploadLoop pd maxTS k (pre ++ bad :: post)).issued.map Prod.snd).flatten =
        pre ++ post ∧
      (uploadLoop pd maxTS k (pre ++ bad :: post)).issued.length =
        ((pre ++ post).length + maxTS - 1) / maxTS ∧
      ∀ p ∈ (uploadLoop pd maxTS k (pre ++ bad :: post)).issued,
        p.2.length ≤ maxTS ∧
        p.1 = { name := "projects/" ++ pd.projectID, timeSeries := p.2.map (tsOf pd) } := by
  intro n
  induction n with
  | zero =>
    intro pre post k hlen hpre hpost
    exfalso
    simp [List.length_append] at hlen
  | succ n ihn =>
    intro pre post k hlen hpre hpost
    rw [uploadLoop_cons_eq pd maxTS k (pre ++ bad :: post) (by simp)]
    by_cases hbig : maxTS ≤ pre.length
    · rw [makeReq_mixed_big pd maxTS bad hbad pre post hM hbig hpre hpost]
      simp only [hcl k]
      obtain ⟨herr, hjoin, hcnt, hall⟩ := ihn (pre.drop maxTS) post (k + 1)
        (by
          simp only [List.length_append, List.length_cons, List.length_drop] at hlen ⊢
          omega)
        (fun rd h' => hpre rd (List.drop_subset _ _ h')) hpost
      refine ⟨?_, ?_, ?_, ?_⟩
      · simp only [List.nil_append]
        exact herr
      · simp only [List.map_cons, List.flatten_cons, hjoin]
        rw [← List.append_assoc, List.take_append_drop]
      · simp only [List.length_cons, hcnt, List.length_append, List.length_drop]
        have harg : pre.length - maxTS + post.length =
            pre.length + post.length - maxTS := by omega
        rw [harg]
        exact (ceilDiv_pos_step maxTS (pre.length + post.length) hM (by omega)).symm
      · intro p hp
        rcases List.mem_cons.mp hp with h1 | h1
        · subst h1
          refine ⟨?_, rfl⟩
          simp only [List.length_take]
          omega
        · exact hall p h1
    · push_neg at hbig
      by_cases hempty : pre = [] ∧ post = []
      · obtain ⟨hp, hq⟩ := hempty
        subst hp
        subst hq
        rw [makeReq_allBad pd maxTS ([] ++ bad :: []) (by
          intro rd hrd
          simp only [List.nil_append, List.mem_singleton] at hrd
          subst hrd
          exact hbad)]
        simp only []
        rw [uploadLoop.eq_1]
        refine ⟨by simp, by simp, ?_, by simp⟩
        simp only [List.length_nil, List.nil_append, Nat.zero_add]
        exact (Nat.div_eq_of_lt (by omega)).symm
      · rw [makeReq_mixed_small pd maxTS bad hbad pre post hM hbig hempty hpre hpost]
        simp only [hcl k]
        have hdlen : (post.drop (maxTS - pre.length)).length ≤ n := by
          simp only [List.length_drop]
          simp only [List.length_append, List.length_cons] at hlen
          omega
        have hdok : ∀ rd ∈ post.drop (maxTS - pre.length), rowOk pd rd = true :=
          fun rd h' => hpost rd (List.drop_subset _ _ h')
        obtain ⟨hjoin, hcnt, hall⟩ :=
          uploadLoop_allOk pd maxTS hM n (post.drop (maxTS - pre.length)) (k + 1) hdlen hdok
        have herr0 :=
          uploadLoop_allOk_errs_none pd maxTS hM hcl n (post.drop (maxTS - pre.length))
            (k + 1) hdlen hdok
        have hNpos : 0 < pre.length + post.length := by
          rcases List.eq_nil_or_concat pre with hp | hp
          · rcases List.eq_nil_or_concat post with hq | hq
            · exact absurd ⟨hp, hq⟩ hempty
            · obtain ⟨q, b, hq⟩ := hq
              subst hq
              simp
          · obtain ⟨q, b, hp⟩ := hp
            subst hp
            simp
        refine ⟨?_, ?_, ?_, ?_⟩
        · rw [herr0]
          rfl
        · simp only [List.map_cons, List.flatten_cons, hjoin]
          rw [List.append_assoc, List.take_append_drop]
        · simp only [List.length_cons, hcnt, List.length_drop, List.length_append]
          have harg : post.length - (maxTS - pre.length) =
              pre.length + post.length - maxTS := by omega
          rw [harg]
          exact (ceilDiv_pos_step maxTS (pre.length + post.length) hM hNpos).symm
        · intro p hp
          rcases List.mem_cons.mp hp with h1 | h1
          · subst h1
            refine ⟨?_, rfl⟩
            simp only [List.length_append, List.length_take]
            omega
          · exact hall p h1

theorem makeReq_req_some (pd : ProjectData) (maxTS : Nat) (rds : List RowData)
    (r : CreateTimeSeriesRequest) (h : (makeReq pd maxTS rds).req = some r) :
    r = { name := "projects/" ++ pd.projectID
          timeSeries := (makeReqLoop pd maxTS 0 rds).timeSeries } := by
  unfold makeReq at h
  simp only [] at h
  by_cases hts : (makeReqLoop pd maxTS 0 rds).timeSeries = []
  · rw [if_pos hts] at h
    cases h
  · rw [if_neg hts] at h
    exact (Option.some_inj.mp h).symm

theorem uploadLoop_shape (pd : ProjectData) (maxTS : Nat) :
    ∀ (n : Nat) (rds : List RowData) (k : Nat), rds.length ≤ n →
      ∀ p ∈ (uploadLoop pd maxTS k rds).issued,
        p.1.name = "projects/" ++ pd.projectID ∧
        ∀ ts ∈ p.1.timeSeries, ts.points.length = 1 := by
  intro n
  induction n with
  | zero =>
    intro rds k hlen p hp
    have hnil : rds = [] := List.eq_nil_of_length_eq_zero (Nat.le_zero.mp hlen)
    subst hnil
    rw [uploadLoop.eq_1] at hp
    simp at hp
  | succ n ihn =>
    intro rds k hlen p hp
    cases hrds : rds with
    | nil =>
      subst hrds
      rw [uploadLoop.eq_1] at hp
      simp at hp
    | cons rd rest =>
      subst hrds
      rw [uploadLoop_cons_eq pd maxTS k (rd :: rest) (by simp)] at hp
      have hremlen : (makeReq pd maxTS (rd :: rest)).remainingRds.length ≤ n := by
        have := makeReq_remaining_lt pd maxTS (rd :: rest) (by simp)
        simp only [List.length_cons] at this hlen ⊢
        omega
      cases hreq : (makeReq pd maxTS (rd :: rest)).req with
      | none =>
        simp only [hreq] at hp
        exact ihn _ k hremlen p hp
      | some r =>
        simp only [hreq] at hp
        have hr := makeReq_req_some pd maxTS (rd :: rest) r hreq
        cases hck : pd.parent.clientErr k with
        | none =>
          simp only [hck] at hp
          rcases List.mem_cons.mp hp with h1 | h1
          · subst h1
            subst hr
            exact ⟨rfl, fun ts hts => makeReqLoop_points pd maxTS (rd :: rest) 0 ts hts⟩
          · exact ihn _ (k + 1) hremlen p h1
        | some cause =>
          simp only [hck] at hp
          rcases List.mem_cons.mp hp with h1 | h1
          · subst h1
            subst hr
            exact ⟨rfl, fun ts hts => makeReqLoop_points pd maxTS (rd :: rest) 0 ts hts⟩
          · exact ihn _ (k + 1) hremlen p h1

theorem uploadLoop_calls (pd : ProjectData) (maxTS : Nat) :
    ∀ (n : Nat) (rds : List RowData) (k : Nat), rds.length ≤ n →
      (uploadLoop pd maxTS k rds).calls = (uploadLoop pd maxTS k rds).issued.length := by
  intro n
  induction n with
  | zero =>
    intro rds k hlen
    have hnil : rds = [] := List.eq_nil_of_length_eq_zero (Nat.le_zero.mp hlen)
    subst hnil
    rw [uploadLoop.eq_1]
    rfl
  | succ n ihn =>
    intro rds k hlen
    cases hrds : rds with
    | nil =>
      subst hrds
      rw [uploadLoop.eq_1]
      rfl
    | cons rd rest =>
      subst hrds
      rw [uploadLoop_cons_eq pd maxTS k (rd :: rest) (by simp)]
      have hremlen : (makeReq pd maxTS (rd :: rest)).remainingRds.length ≤ n := by
        have := makeReq_remaining_lt pd maxTS (rd :: rest) (by simp)
        simp only [List.length_cons] at this hlen ⊢
        omega
      cases hreq : (makeReq pd maxTS (rd :: rest)).req with
      | none =>
        simp only [hreq]
        exact ihn _ k hremlen
      | some r =>
        cases hck : pd.parent.clientErr k with
        | none =>
          simp only [hreq, hck, List.length_cons]
          rw [ihn _ (k + 1) hremlen]
        | some cause =>
          simp only [hreq, hck, List.length_cons]
          rw [ihn _ (k + 1) hremlen]

theorem uploadRowData_allBad (pd : ProjectData) (maxTS : Nat) (rds : List RowData)
    (h : ∀ rd ∈ rds, newTypedValue rd.view rd.row = none) :
    uploadRowData pd maxTS rds =
      { issued := []
        errs := rds.map (fun rd => { err := .inconsistentData rd.view.name, rds := [rd] })
        calls := 0 } := by
  unfold uploadRowData
  cases hrds : rds with
  | nil =>
    rw [uploadLoop.eq_1]
    rfl
  | cons rd rest =>
    subst hrds
    rw [uploadLoop_cons_eq pd maxTS 0 (rd :: rest) (by simp),
      makeReq_allBad pd maxTS (rd :: rest) h]
    simp only []
    rw [uploadLoop.eq_1]
    simp

/-! Claim theorems. -/

/-- C1: for a bundle of N rows that all convert successfully and
max-series-per-request M > 0, `uploadRowData` issues exactly ⌈N/M⌉
requests; every request carries at most M time series, one per included
row; and the requests' row lists concatenate to the original bundle, so
every row appears in exactly one request and the original relative order
is preserved within and across requests. -/
theorem claim_C1 (pd : ProjectData) (maxTS : Nat) (rds : List RowData)
    (hM : 0 < maxTS) (h : ∀ rd ∈ rds, rowOk pd rd = true) :
    (uploadRowData pd maxTS rds).issued.length = (rds.length + maxTS - 1) / maxTS ∧
    (∀ p ∈ (uploadRowData pd maxTS rds).issued,
      p.1.timeSeries.length ≤ maxTS ∧ p.1.timeSeries = p.2.map (tsOf pd) ∧
      p.2.length ≤ maxTS) ∧
    ((uploadRowData pd maxTS rds).issued.map Prod.snd).flatten = rds := by
  unfold uploadRowData
  obtain ⟨hjoin, hcnt, hall⟩ := uploadLoop_allOk pd maxTS hM rds.length rds 0 le_rfl h
  refine ⟨hcnt, ?_, hjoin⟩
  intro p hp
  obtain ⟨hle, hreq⟩ := hall p hp
  refine ⟨?_, ?_, hle⟩
  · rw [hreq]
    simpa using hle
  · rw [hreq]

/-- Witness for C1: three valid rows with limit 2 give ⌈3/2⌉ = 2
requests. -/
theorem claim_C1_witness :
    (uploadRowData pdBase 2 [sumRowData 1, sumRowData 2, sumRowData 3]).issued.length =
      (([sumRowData 1, sumRowData 2, sumRowData 3] : List RowData).length + 2 - 1) / 2 ∧
    (∀ p ∈ (uploadRowData pdBase 2 [sumRowData 1, sumRowData 2, sumRowData 3]).issued,
      p.1.timeSeries.length ≤ 2 ∧ p.1.timeSeries = p.2.map (tsOf pdBase) ∧
      p.2.length ≤ 2) ∧
    ((uploadRowData pdBase 2 [sumRowData 1, sumRowData 2, sumRowData 3]).issued.map
        Prod.snd).flatten = [sumRowData 1, sumRowData 2, sumRowData 3] :=
  claim_C1 pdBase 2 [sumRowData 1, sumRowData 2, sumRowData 3] (by decide) (by decide)

/-- C2 (code bug): when the bundler rejects a row as oversized,
`exportRowData` spawns the detached direct upload with the bare `*RowData`
as the bundle argument, and the `bundle.([]*RowData)` type assertion at
the top of `uploadRowData` fails on that argument — a run-time panic,
modelled as `none` — so the row is neither uploaded nor reported, contrary
to the claim that the cast succeeds. -/
theorem claim_C2_code_bug :
    exportRowData expOversized (sumRowData 1) =
      .directUpload "project-1" (.rowData (sumRowData 1)) ∧
    uploadRowDataGo pdOversized 200 (.rowData (sumRowData 1)) = none := by
  constructor
  · rfl
  · rfl

/-- C3: in a bundle where exactly one row fails point conversion (all
other rows convert, resources construct, and the client never fails), the
bad row is excluded from every request and from every remaining-rows
continuation, exactly one inconsistent-data error naming only that row is
reported, and all other rows are uploaded in order, chunked as usual. -/
theorem claim_C3 (pd : ProjectData) (maxTS : Nat) (bad : RowData)
    (pre post : List RowData) (hM : 0 < maxTS)
    (hbad : newTypedValue bad.view bad.row = none)
    (hcl : ∀ i, pd.parent.clientErr i = none)
    (hpre : ∀ rd ∈ pre, rowOk pd rd = true)
    (hpost : ∀ rd ∈ post, rowOk pd rd = true) :
    (uploadRowData pd maxTS (pre ++ bad :: post)).errs =
      [{ err := .inconsistentData bad.view.name, rds := [bad] }] ∧
    ((uploadRowData pd maxTS (pre ++ bad :: post)).issued.map Prod.snd).flatten =
      pre ++ post ∧
    (uploadRowData pd maxTS (pre ++ bad :: post)).issued.length =
      ((pre ++ post).length + maxTS - 1) / maxTS ∧
    ∀ p ∈ (uploadRowData pd maxTS (pre ++ bad :: post)).issued,
      p.2.length ≤ maxTS ∧
      p.1 = { name := "projects/" ++ pd.projectID, timeSeries := p.2.map (tsOf pd) } := by
  unfold uploadRowData
  exact uploadLoop_mixed pd maxTS hM bad hbad hcl (pre ++ bad :: post).length
    pre post 0 le_rfl hpre hpost

/-- Witness for C3: five rows under the chunk limit with only row 2
failing conversion — rows 1,3,4,5 are uploaded as ⌈4/200⌉ = 1 request and
exactly one error names row 2. -/
theorem claim_C3_witness :
    (uploadRowData pdBase 200
        ([sumRowData 1] ++ invalidRowData :: [sumRowData 3, sumRowData 4, sumRowData 5])).errs =
      [{ err := .inconsistentData invalidRowData.view.name, rds := [invalidRowData] }] ∧
    ((uploadRowData pdBase 200
        ([sumRowData 1] ++ invalidRowData :: [sumRowData 3, sumRowData 4, sumRowData 5])).issued.map
        Prod.snd).flatten = [sumRowData 1] ++ [sumRowData 3, sumRowData 4, sumRowData 5] ∧
    (uploadRowData pdBase 200
        ([sumRowData 1] ++ invalidRowData :: [sumRowData 3, sumRowData 4, sumRowData 5])).issued.length =
      (([sumRowData 1] ++ [sumRowData 3, sumRowData 4, sumRowData 5] : List RowData).length + 200 - 1) / 200 ∧
    ∀ p ∈ (uploadRowData pdBase 200
        ([sumRowData 1] ++ invalidRowData :: [sumRowData 3, sumRowData 4, sumRowData 5])).issued,
      p.2.length ≤ 200 ∧
      p.1 = { name := "projects/" ++ pdBase.projectID, timeSeries := p.2.map (tsOf pdBase) } :=
  claim_C3 pdBase 200 invalidRowData [sumRowData 1] [sumRowData 3, sumRowData 4, sumRowData 5]
    (by decide) (by decide) (fun i => rfl) (by decide) (by decide)

/-- C4: in a multi-chunk upload where every row converts and the client
fails exactly on its j-th call, exactly one aggregated error is reported,
carrying precisely the rows of chunk j (rows j·M to j·M+M−1 of the
bundle), and every chunk — including the ones after the failure — is still
built and submitted. -/
theorem claim_C4 (pd : ProjectData) (maxTS : Nat) (rds : List RowData)
    (j : Nat) (cause : String) (hM : 0 < maxTS)
    (h : ∀ rd ∈ rds, rowOk pd rd = true)
    (hj : pd.parent.clientErr j = some cause)
    (hother : ∀ i, i ≠ j → pd.parent.clientErr i = none)
    (hjlt : j < (rds.length + maxTS - 1) / maxTS) :
    (uploadRowData pd maxTS rds).errs =
      [{ err := .rpcFailed pd.projectID cause
         rds := (rds.drop (j * maxTS)).take maxTS }] ∧
    (uploadRowData pd maxTS rds).issued.length = (rds.length + maxTS - 1) / maxTS ∧
    ((uploadRowData pd maxTS rds).issued.map Prod.snd).flatten = rds := by
  unfold uploadRowData
  obtain ⟨hjoin, hcnt, hall⟩ := uploadLoop_allOk pd maxTS hM rds.length rds 0 le_rfl h
  have herr := uploadLoop_allOk_errs_single pd maxTS hM j cause hj hother rds.length rds 0
    le_rfl h
  rw [if_pos ⟨Nat.zero_le j, by omega⟩, Nat.sub_zero] at herr
  exact ⟨herr, hcnt, hjoin⟩

/-- Witness for C4: three rows, limit 2, client failing on call 0: the
aggregated error carries exactly the two rows of the first chunk and both
chunks are still issued. -/
theorem claim_C4_witness :
    (uploadRowData pdFail0 2 [sumRowData 1, sumRowData 2, sumRowData 3]).errs =
      [{ err := .rpcFailed pdFail0.projectID "transport broken"
         rds := (([sumRowData 1, sumRowData 2, sumRowData 3] : List RowData).drop (0 * 2)).take 2 }] ∧
    (uploadRowData pdFail0 2 [sumRowData 1, sumRowData 2, sumRowData 3]).issued.length =
      (([sumRowData 1, sumRowData 2, sumRowData 3] : List RowData).length + 2 - 1) / 2 ∧
    ((uploadRowData pdFail0 2 [sumRowData 1, sumRowData 2, sumRowData 3]).issued.map
        Prod.snd).flatten = [sumRowData 1, sumRowData 2, sumRowData 3] :=
  claim_C4 pdFail0 2 [sumRowData 1, sumRowData 2, sumRowData 3] 0 "transport broken"
    (by decide) (by decide) rfl (fun i hi => if_neg hi) (by decide)

/-- C5: for every ingested row exactly one of three things happens, keyed
on the classifier's answer: a tenant id — the row is handed to that single
tenant's bundler (buffered, direct-uploaded, or add-error-reported, all
against that one tenant); the not-applicable signal — silent drop with no
error; any other error — drop with exactly one reported error naming the
originating view.  With no classification callback configured
(`defaultGetProjectID`), every row takes the silent-drop path. -/
theorem claim_C5 (e : StatsExporter) (rd : RowData) :
    (∀ projID, e.getProjectID rd = .ok projID →
      exportRowData e rd = .buffered projID ∨
      exportRowData e rd = .directUpload projID (.rowData rd) ∨
      ∃ cause, exportRowData e rd =
        .reported { err := .addFailed rd.view.name projID cause, rds := [rd] }) ∧
    (e.getProjectID rd = .error .notApplicable →
      exportRowData e rd = .droppedSilently) ∧
    (∀ cause, e.getProjectID rd = .error (.other cause) →
      exportRowData e rd =
        .reported { err := .getProjectIDFailed rd.view.name cause, rds := [rd] }) ∧
    (e.getProjectID = defaultGetProjectID → exportRowData e rd = .droppedSilently) := by
  refine ⟨?_, ?_, ?_, ?_⟩
  · intro projID hok
    unfold exportRowData
    rw [hok]
    cases hadd : e.bundlerAdd projID rd with
    | ok =>
      left
      simp [hadd]
    | oversized =>
      right
      left
      simp [hadd]
    | failed cause =>
      right
      right
      refine ⟨cause, ?_⟩
      simp [hadd]
  · intro hna
    unfold exportRowData
    rw [hna]
  · intro cause hc
    unfold exportRowData
    rw [hc]
  · intro hdef
    unfold exportRowData
    rw [hdef]
    rfl

/-- Witness for C5: the three classifier outcomes and the default
classifier, each at a concrete exporter. -/
theorem claim_C5_witness :
    exportRowData expNotApplicable (sumRowData 1) = .droppedSilently ∧
    exportRowData expClassifyErr (sumRowData 1) =
      .reported { err := .getProjectIDFailed (sumRowData 1).view.name "lookup failed"
                  rds := [sumRowData 1] } ∧
    (exportRowData expBase (sumRowData 1) = .buffered "project-1" ∨
     exportRowData expBase (sumRowData 1) =
       .directUpload "project-1" (.rowData (sumRowData 1)) ∨
     ∃ cause, exportRowData expBase (sumRowData 1) =
       .reported { err := .addFailed (sumRowData 1).view.name "project-1" cause
                   rds := [sumRowData 1] }) :=
  ⟨(claim_C5 expNotApplicable (sumRowData 1)).2.1 rfl,
   (claim_C5 expClassifyErr (sumRowData 1)).2.2.1 "lookup failed" rfl,
   (claim_C5 expBase (sumRowData 1)).1 "project-1" rfl⟩

/-- C6: the label builder's output is exactly the default labels overlaid
by every tag (tag values winning on key collision, later tags last) with
every unexported key removed — stated as a complete lookup
characterization, total and deterministic by construction — and on the
spec's concrete example: defaults {a:1, b:2} with tag a:9 give {a:9, b:2},
and additionally unexporting b gives {a:9}. -/
theorem claim_C6 :
    (∀ (e : StatsExporter) (tags : List Tag) (k : String),
      mapLookup (makeLabels e tags) k =
        if k ∈ e.opts.unexportedLabels then none
        else lastBinding (e.opts.defaultLabels ++ tags.map (fun t => (t.key, t.value))) k) ∧
    makeLabels expLabelsA [{ key := "a", value := "9" }] = [("a", "9"), ("b", "2")] ∧
    makeLabels expLabelsB [{ key := "a", value := "9" }] = [("a", "9")] := by
  refine ⟨fun e tags k => makeLabels_lookup e tags k, ?_, ?_⟩
  · decide
  · decide

/-- C7: a last-value-aggregation view produces a point whose interval has
no start timestamp and the window end as end timestamp; every other
aggregation kind produces a point carrying both the window start and end
timestamps. -/
theorem claim_C7 (v : View) (row : Row) (start «end» : Time) :
    (v.aggregation.type = .aggTypeLastValue →
      (newPoint v row start «end»).interval =
        { startTime := none
          endTime := { seconds := «end».unix, nanos := «end».nanosecond } }) ∧
    (v.aggregation.type ≠ .aggTypeLastValue →
      (newPoint v row start «end»).interval =
        { startTime := some { seconds := start.unix, nanos := start.nanosecond }
          endTime := { seconds := «end».unix, nanos := «end».nanosecond } }) := by
  rcases v with ⟨n, m, ⟨t, b⟩⟩
  cases t with
  | aggTypeNone => exact ⟨(fun h => nomatch h), fun _ => rfl⟩
  | aggTypeCount => exact ⟨(fun h => nomatch h), fun _ => rfl⟩
  | aggTypeSum => exact ⟨(fun h => nomatch h), fun _ => rfl⟩
  | aggTypeDistribution => exact ⟨(fun h => nomatch h), fun _ => rfl⟩
  | aggTypeLastValue => exact ⟨fun _ => rfl, fun h => absurd rfl h⟩

/-- Witness for C7: a gauge view point has no interval start; a sum view
point carries both window timestamps. -/
theorem claim_C7_witness :
    (newPoint viewGauge { tags := [], data := some (.lastValueData 7) } ⟨1, 2⟩ ⟨3, 4⟩).interval =
      { startTime := none, endTime := { seconds := 3, nanos := 4 } } ∧
    (newPoint view1 { tags := [], data := some (.sumData 7) } ⟨1, 2⟩ ⟨3, 4⟩).interval =
      { startTime := some { seconds := 1, nanos := 2 }
        endTime := { seconds := 3, nanos := 4 } } :=
  ⟨(claim_C7 viewGauge { tags := [], data := some (.lastValueData 7) } ⟨1, 2⟩ ⟨3, 4⟩).1 rfl,
   (claim_C7 view1 { tags := [], data := some (.sumData 7) } ⟨1, 2⟩ ⟨3, 4⟩).2 (by decide)⟩

/-- C8: the typed value is encoded by aggregation/measure kind — count
data gives an integer value; sum and last-value data give an integer value
for an integer measure and a floating-point value for a float measure;
distribution data gives a structured value with total count, mean, sum of
squared deviation, the view's explicit bucket bounds and per-bucket
counts, and no min/max range; any other combination produces no value,
which the request builder turns into a per-row inconsistent-data error
while continuing with the remaining rows. -/
theorem claim_C8 (vd : View) (r : Row) :
    (∀ c, r.data = some (.countData c) → newTypedValue vd r = some (.int64Value c)) ∧
    (∀ x, r.data = some (.sumData x) → vd.measure = .int64Measure →
      newTypedValue vd r = some (.int64Value (float64ToInt64 x))) ∧
    (∀ x, r.data = some (.sumData x) → vd.measure = .float64Measure →
      newTypedValue vd r = some (.doubleValue x)) ∧
    (∀ x, r.data = some (.lastValueData x) → vd.measure = .int64Measure →
      newTypedValue vd r = some (.int64Value (float64ToInt64 x))) ∧
    (∀ x, r.data = some (.lastValueData x) → vd.measure = .float64Measure →
      newTypedValue vd r = some (.doubleValue x)) ∧
    (∀ cnt mean ssd cpb mn mx,
      r.data = some (.distributionData cnt mean ssd cpb mn mx) →
      newTypedValue vd r = some (.distributionValue
        { count := cnt
          mean := mean
          sumOfSquaredDeviation := ssd
          bucketBounds := vd.aggregation.buckets
          bucketCounts := cpb
          rangeMinMax := none })) ∧
    (r.data = none → newTypedValue vd r = none) ∧
    (∀ (pd : ProjectData) (maxTS count : Nat) (rd : RowData) (rest : List RowData),
      newTypedValue rd.view rd.row = none →
      makeReqLoop pd maxTS count (rd :: rest) =
        { makeReqLoop pd maxTS count rest with
            errs := { err := .inconsistentData rd.view.name, rds := [rd] } ::
              (makeReqLoop pd maxTS count rest).errs }) := by
  refine ⟨?_, ?_, ?_, ?_, ?_, ?_, ?_, ?_⟩
  · intro c hc
    simp [newTypedValue, hc]
  · intro x hx hm
    simp [newTypedValue, hx, hm]
  · intro x hx hm
    simp [newTypedValue, hx, hm]
  · intro x hx hm
    simp [newTypedValue, hx, hm]
  · intro x hx hm
    simp [newTypedValue, hx, hm]
  · intro cnt mean ssd cpb mn mx hd
    simp [newTypedValue, hd]
  · intro hn
    simp [newTypedValue, hn]
  · intro pd maxTS count rd rest hbad
    simp only [makeReqLoop, newPoint_value, hbad]

/-- Witness for C8: concrete encodings of a sum row on an integer
measure, a last-value row on a float measure, and a nil-data row. -/
theorem claim_C8_witness :
    newTypedValue view1 { tags := [], data := some (.sumData 5) } =
      some (.int64Value (float64ToInt64 5)) ∧
    newTypedValue viewGauge { tags := [], data := some (.lastValueData 5) } =
      some (.doubleValue 5) ∧
    newTypedValue view1 { tags := [], data := none } = none :=
  ⟨(claim_C8 view1 { tags := [], data := some (.sumData 5) }).2.1 5 rfl rfl,
   (claim_C8 viewGauge { tags := [], data := some (.lastValueData 5) }).2.2.2.2.1 5 rfl rfl,
   (claim_C8 view1 { tags := [], data := none }).2.2.2.2.2.2.1 rfl⟩

/-- C9: every issued request is addressed to "projects/{tenantID}" and
each of its time series carries exactly one data point; the number of
client calls made equals the number of issued requests, so no call is made
for an empty series list; in particular a bundle whose rows all fail
conversion issues no request and makes no client call. -/
theorem claim_C9 (pd : ProjectData) (maxTS : Nat) (rds : List RowData) :
    (∀ p ∈ (uploadRowData pd maxTS rds).issued,
      p.1.name = "projects/" ++ pd.projectID ∧
      ∀ ts ∈ p.1.timeSeries, ts.points.length = 1) ∧
    (uploadRowData pd maxTS rds).calls = (uploadRowData pd maxTS rds).issued.length ∧
    ((∀ rd ∈ rds, newTypedValue rd.view rd.row = none) →
      (uploadRowData pd maxTS rds).issued = [] ∧ (uploadRowData pd maxTS rds).calls = 0) := by
  refine ⟨?_, ?_, ?_⟩
  · exact fun p hp => uploadLoop_shape pd maxTS rds.length rds 0 le_rfl p hp
  · exact uploadLoop_calls pd maxTS rds.length rds 0 le_rfl
  · intro h
    rw [uploadRowData_allBad pd maxTS rds h]
    exact ⟨rfl, rfl⟩

/-- Witness for C9: a bundle consisting only of an inconvertible row
issues no request and makes no client call. -/
theorem claim_C9_witness :
    (uploadRowData pdBase 200 [invalidRowData]).issued = [] ∧
    (uploadRowData pdBase 200 [invalidRowData]).calls = 0 :=
  (claim_C9 pdBase 200 [invalidRowData]).2.2 (by decide)

/-- C10: on a non-empty row list `makeReq` always returns a strictly
shorter remaining-rows list — at least one row is consumed, whether
included, skipped as inconsistent, or skipped on resource failure — so the
chunking loop of `uploadRowData` makes progress, terminates, and never
calls `makeReq` on an empty list (its loop guard stops first). -/
theorem claim_C10 (pd : ProjectData) (maxTS : Nat) (rds : List RowData) (h : rds ≠ []) :
    (makeReq pd maxTS rds).remainingRds.length < rds.length :=
  makeReq_remaining_lt pd maxTS rds h

/-- Witness for C10: a two-row list (one valid, one inconvertible) leaves
a remaining list strictly shorter than two. -/
theorem claim_C10_witness :
    (makeReq pdBase 200 [sumRowData 1, invalidRowData]).remainingRds.length <
      ([sumRowData 1, invalidRowData] : List RowData).length :=
  claim_C10 pdBase 200 [sumRowData 1, invalidRowData] (by decide)

end Exporter
